import Mathlib

/-!
A shallow embedding of the Arabic RTL corrector content script: the class
ArabicRTLCorrector of the repository. The embedding covers character
classification, the Arabic-ratio classifier, configuration construction,
per-element text extraction and processing, idempotent style application,
and the engine state machine around mutations, debouncing, batched
time-sliced processing, enable and disable. Texts are Lean strings of
Unicode scalar values; numbers computed by the script are modelled as
exact rationals.
-/

set_option allowUnsafeReducibility true

attribute [local semireducible] Rat.add Rat.sub Rat.mul Rat.div Rat.inv Rat.neg

/-- The whitespace character class of the script's regular expressions:
space, tab, line terminators, and the Unicode space separators that the
host regular-expression dialect includes in its whitespace class. -/
def isJsWs (c : Char) : Bool :=
  let n := c.toNat
  decide (n = 0x20 ∨ n = 0x09 ∨ n = 0x0A ∨ n = 0x0B ∨ n = 0x0C ∨ n = 0x0D ∨
    n = 0xA0 ∨ n = 0x1680 ∨ (0x2000 ≤ n ∧ n ≤ 0x200A) ∨ n = 0x2028 ∨
    n = 0x2029 ∨ n = 0x202F ∨ n = 0x205F ∨ n = 0x3000 ∨ n = 0xFEFF)

/-- The Arabic character ranges of the source's arabicRegex:
0600-06FF, 0750-077F, 08A0-08FF, FB50-FDFF, FE70-FEFF. -/
def isArabicChar (c : Char) : Bool :=
  let n := c.toNat
  decide ((0x0600 ≤ n ∧ n ≤ 0x06FF) ∨ (0x0750 ≤ n ∧ n ≤ 0x077F) ∨
    (0x08A0 ≤ n ∧ n ≤ 0x08FF) ∨ (0xFB50 ≤ n ∧ n ≤ 0xFDFF) ∨
    (0xFE70 ≤ n ∧ n ≤ 0xFEFF))

/-- The Unicode letter property used by the source's cleaning regex,
restricted to the scripts this development exercises: ASCII letters and
the Arabic ranges above. -/
def isLetterChar (c : Char) : Bool :=
  (decide (0x41 ≤ c.toNat ∧ c.toNat ≤ 0x5A) ||
   decide (0x61 ≤ c.toNat ∧ c.toNat ≤ 0x7A)) || isArabicChar c

/-- The script's trim on text: leading and trailing whitespace removed,
as a character list. -/
def jsTrim (t : String) : List Char :=
  ((t.toList.dropWhile isJsWs).reverse.dropWhile isJsWs).reverse

/-- Match the tail of a URL alternative of the LTR-preserve regex:
a colon, two slashes, then one or more non-whitespace characters,
consumed greedily. Returns the remainder after the match. -/
def matchSchemeTail (l : List Char) : Option (List Char) :=
  match l with
  | ':' :: '/' :: '/' :: rest =>
    let tok := rest.takeWhile (fun c => !(isJsWs c))
    if tok.isEmpty then none else some (rest.drop tok.length)
  | _ => none

/-- Match the URL alternatives of the LTR-preserve regex at the head of
the list: http with an optional s (tried greedily, with fallback) then
the scheme tail, or www. followed by one or more non-whitespace
characters. -/
def matchUrlAt (l : List Char) : Option (List Char) :=
  match l with
  | 'h' :: 't' :: 't' :: 'p' :: rest =>
    match rest with
    | 's' :: rest2 =>
      match matchSchemeTail rest2 with
      | some r => some r
      | none => matchSchemeTail rest
    | _ => matchSchemeTail rest
  | 'w' :: 'w' :: 'w' :: '.' :: rest =>
    let tok := rest.takeWhile (fun c => !(isJsWs c))
    if tok.isEmpty then none else some (rest.drop tok.length)
  | _ => none

/-- The global replace of the LTR-preserve regex (digit runs, http and
https URL tokens, www tokens) by the empty string: a left-to-right scan
that at each position tries a maximal digit run first, then the URL
alternatives, and on failure keeps the character and advances by one.
The fuel argument bounds recursion depth by the list length. -/
def stripLtrAux : Nat → List Char → List Char
  | 0, l => l
  | _ + 1, [] => []
  | fuel + 1, c :: cs =>
    if c.isDigit then stripLtrAux fuel ((c :: cs).dropWhile Char.isDigit)
    else
      match matchUrlAt (c :: cs) with
      | some rest => stripLtrAux fuel rest
      | none => c :: stripLtrAux fuel cs

/-- Remove every digit run and URL-like token, scanning left to right. -/
def stripLtrTokens (l : List Char) : List Char := stripLtrAux l.length l

/-- The number of characters of the list in the Arabic ranges: the match
count of arabicRegex over the cleaned text. -/
def countArabic (l : List Char) : Nat := (l.filter isArabicChar).length

/-- calculateArabicRatio of the source: zero for empty or whitespace-only
text; otherwise the text with whitespace removed, then digit runs and
URL-like tokens removed, then restricted to letters; zero when nothing
remains, else the fraction of Arabic characters among the remaining
letters. -/
def calculateArabicRatio (text : String) : ℚ :=
  if text = "" ∨ (jsTrim text).length = 0 then 0
  else
    let noWs := text.toList.filter (fun c => !(isJsWs c))
    let noLtr := stripLtrTokens noWs
    let clean := noLtr.filter isLetterChar
    if clean.length = 0 then 0
    else (countArabic clean : ℚ) / (clean.length : ℚ)

/-- C7: the ratio classifier is a pure, deterministic function of its text
argument: identical input yields identical output, the empty text and an
all-digit text classify to zero, and a text consisting of a single
URL-like token classifies to zero because the URL is stripped entirely. -/
theorem ratio_pure_and_examples :
    (∀ t : String, calculateArabicRatio t = calculateArabicRatio t) ∧
    calculateArabicRatio "" = 0 ∧
    calculateArabicRatio "12345" = 0 ∧
    calculateArabicRatio "https://x.y/ar" = 0 :=
  ⟨fun _ => rfl, by decide, by decide, by decide⟩

/-- The constructor's option record: each field either absent or a caller
supplied value. Numbers are rationals, matching the script's numbers. -/
structure Options where
  arabicThreshold : Option ℚ := none
  debounceDelay : Option ℚ := none
  enableVisualFeedback : Option Bool := none
  enableIframeHandling : Option Bool := none
  batchSize : Option ℚ := none
  maxProcessingTime : Option ℚ := none
  deriving DecidableEq

/-- The engine configuration record the constructor builds. -/
structure Config where
  arabicThreshold : ℚ
  debounceDelay : ℚ
  enableVisualFeedback : Bool
  enableIframeHandling : Bool
  batchSize : ℚ
  maxProcessingTime : ℚ
  deriving DecidableEq

/-- The script's logical-or defaulting on a numeric option: an absent value
and the number zero are both falsy and yield the default. -/
def jsOrNum (o : Option ℚ) (d : ℚ) : ℚ :=
  match o with
  | some x => if x = 0 then d else x
  | none => d

/-- The script's comparison of an optional boolean against false: only an
explicitly supplied false yields false. -/
def jsNeqFalse (o : Option Bool) : Bool :=
  match o with
  | some b => b
  | none => true

/-- The constructor's configuration merge: defaults applied first with the
falsy-or pattern, then the whole caller option record spread over them, so
every explicitly supplied field, falsy ones included, wins. -/
def mkConfig (o : Options) : Config :=
  let base : Config :=
    { arabicThreshold := jsOrNum o.arabicThreshold (3 / 10)
      debounceDelay := jsOrNum o.debounceDelay 150
      enableVisualFeedback := jsNeqFalse o.enableVisualFeedback
      enableIframeHandling := jsNeqFalse o.enableIframeHandling
      batchSize := jsOrNum o.batchSize 30
      maxProcessingTime := jsOrNum o.maxProcessingTime 16 }
  { arabicThreshold := o.arabicThreshold.getD base.arabicThreshold
    debounceDelay := o.debounceDelay.getD base.debounceDelay
    enableVisualFeedback := o.enableVisualFeedback.getD base.enableVisualFeedback
    enableIframeHandling := o.enableIframeHandling.getD base.enableIframeHandling
    batchSize := o.batchSize.getD base.batchSize
    maxProcessingTime := o.maxProcessingTime.getD base.maxProcessingTime }

/-- The state of one tree node as the engine observes and mutates it:
identity, tag, the attributes the script reads, visibility and
connectedness, the text sources, the element descendant ids in document
order, the inline style properties the script writes, the two data
attributes, and the per-node engine bookkeeping (processed-set membership
and the text cache entry). -/
structure NodeState where
  id : Nat
  tagName : String
  inputType : Option String := none
  contenteditableAttr : Option String := none
  dirAttr : Option String := none
  dataRtlSkip : Bool := false
  classRtlSkip : Bool := false
  visible : Bool := true
  connected : Bool := true
  textContent : String := ""
  value : String := ""
  placeholder : String := ""
  descendants : List Nat := []
  styleDirection : String := ""
  styleTextAlign : String := ""
  styleUnicodeBidi : String := ""
  styleTransition : String := ""
  rtlApplied : Bool := false
  appliedRatio : Option ℚ := none
  processed : Bool := false
  cachedText : Option String := none
  deriving DecidableEq

/-- getElementText's text computation: value and placeholder concatenated
with a space for input and textarea nodes, the text content for editable
and generic nodes. (The caller writes the result into the cache; that
write is modelled at each call site.) -/
def extractedText (e : NodeState) : String :=
  if e.tagName = "INPUT" ∨ e.tagName = "TEXTAREA" then
    e.value ++ " " ++ e.placeholder
  else if e.contenteditableAttr.isSome then e.textContent
  else e.textContent

/-- ASCII lowercasing, the part of the host's toLowerCase the dir-attribute
comparison exercises. -/
def jsToLower (s : String) : String := String.mk (s.toList.map Char.toLower)

/-- The style applicator's author-override guard: a dir attribute present
and equal to ltr after lowercasing. -/
def isLtrOverride (e : NodeState) : Bool :=
  match e.dirAttr with
  | some d => jsToLower d == "ltr"
  | none => false

/-- The absolute value used by the redundancy guard, as the host's
Math.abs computes it. -/
def jsAbs (q : ℚ) : ℚ := if q < 0 then -q else q

/-- The applicator's redundancy guard: a data-arabic-ratio attribute
present whose value is within 0.01 of the new ratio. -/
def hasCloseAppliedRatio (e : NodeState) (r : ℚ) : Bool :=
  match e.appliedRatio with
  | some q => decide (jsAbs (q - r) < 1 / 100)
  | none => false

/-- toFixed with two digits on a nonnegative ratio: the nearest multiple
of one hundredth, ties rounded up. -/
def toFixed2 (r : ℚ) : ℚ := ((Rat.floor (r * 100 + 1 / 2) : ℤ) : ℚ) / 100

/-- getBestTextAlign of the source: centered for buttons, inherited for
table cells, right for inputs, textareas, editables and everything else. -/
def getBestTextAlign (e : NodeState) : String :=
  if e.tagName = "BUTTON" then "center"
  else if e.tagName = "TD" ∨ e.tagName = "TH" then "inherit"
  else if e.tagName = "INPUT" ∨ e.tagName = "TEXTAREA" ∨
      e.contenteditableAttr.isSome then "right"
  else "right"

/-- applyRTLStyles of the source: no-op under an explicit ltr override or
when the stored ratio attribute is within 0.01 of the new ratio; otherwise
assigns alignment and bidi styling (direction, embed bidi and right
alignment for every tag except the generic div container, which keeps its
direction and gets only alignment and a bidi hint), attaches the
transition when visual feedback is enabled, and records the marker
attribute and the two-decimal ratio attribute. -/
def applyRTLStyles (cfg : Config) (e : NodeState) (arabicRatio : ℚ) : NodeState :=
  if isLtrOverride e then e
  else if hasCloseAppliedRatio e arabicRatio then e
  else
    { e with
      styleTextAlign := if e.tagName ≠ "DIV" then "right" else getBestTextAlign e
      styleUnicodeBidi :=
        if e.tagName ≠ "DIV" then "embed"
        else if arabicRatio > 7 / 10 then "bidi-override" else "plaintext"
      styleDirection := if e.tagName ≠ "DIV" then "rtl" else e.styleDirection
      styleTransition :=
        if cfg.enableVisualFeedback then "all 0.3s ease" else e.styleTransition
      rtlApplied := true
      appliedRatio := some (toFixed2 arabicRatio) }

/-- The tags processElement always checks for any Arabic content. -/
def alwaysCheckTags : List String := ["SPAN", "H1", "A", "P"]

/-- processElement of the source: skip disconnected nodes; extract the
text (caching it); return before classifying when the text is empty or
shorter than three characters after trimming; otherwise classify, style
when the tag is always-checked and the ratio is positive or when the
ratio reaches the threshold, and mark the node processed. -/
def processElement (cfg : Config) (e : NodeState) : NodeState :=
  if e.connected = false then e
  else if extractedText e = "" ∨ (jsTrim (extractedText e)).length < 3 then
    { e with cachedText := some (extractedText e) }
  else if alwaysCheckTags.contains e.tagName ∧
      0 < calculateArabicRatio (extractedText e) then
    { applyRTLStyles cfg { e with cachedText := some (extractedText e) }
        (calculateArabicRatio (extractedText e)) with processed := true }
  else if cfg.arabicThreshold ≤ calculateArabicRatio (extractedText e) then
    { applyRTLStyles cfg { e with cachedText := some (extractedText e) }
        (calculateArabicRatio (extractedText e)) with processed := true }
  else { e with cachedText := some (extractedText e), processed := true }

/-- C9: the effective RTL threshold defaults to 0.3 when unspecified and
equals the caller supplied value for any value in the unit range; an
explicitly supplied zero survives because the caller record is spread
over the falsy-or defaults afterwards. -/
theorem config_threshold_default (v : ℚ) (h0 : 0 ≤ v) (h1 : v ≤ 1) :
    (mkConfig {}).arabicThreshold = 3 / 10 ∧
    (mkConfig { arabicThreshold := some v }).arabicThreshold = v :=
  ⟨rfl, rfl⟩

/-- Witness for the threshold claim at the boundary value zero. -/
theorem config_threshold_default_witness :
    (0 : ℚ) ≤ 0 ∧ (0 : ℚ) ≤ 1 ∧
    ((mkConfig {}).arabicThreshold = 3 / 10 ∧
      (mkConfig { arabicThreshold := some 0 }).arabicThreshold = 0) :=
  ⟨le_refl 0, by norm_num, config_threshold_default 0 (le_refl 0) (by norm_num)⟩

/-- C10: a node whose extracted text is shorter than three characters
after trimming is never classified: processing writes no style property,
no marker or ratio attribute, and no processed-set entry. -/
theorem short_text_skipped (cfg : Config) (e : NodeState)
    (h : (jsTrim (extractedText e)).length < 3) :
    (processElement cfg e).rtlApplied = e.rtlApplied ∧
    (processElement cfg e).appliedRatio = e.appliedRatio ∧
    (processElement cfg e).processed = e.processed ∧
    (processElement cfg e).styleDirection = e.styleDirection ∧
    (processElement cfg e).styleTextAlign = e.styleTextAlign ∧
    (processElement cfg e).styleUnicodeBidi = e.styleUnicodeBidi ∧
    (processElement cfg e).styleTransition = e.styleTransition := by
  unfold processElement
  by_cases hc : e.connected = false
  · simp [hc]
  · rw [if_neg hc, if_pos (Or.inr h)]
    exact ⟨rfl, rfl, rfl, rfl, rfl, rfl, rfl⟩

/-- A two-character paragraph used as concrete input below. -/
def tinyNode : NodeState := { id := 5, tagName := "P", textContent := "ab" }

/-- Witness for the short-text claim on a two-character paragraph. -/
theorem short_text_skipped_witness :
    (jsTrim (extractedText tinyNode)).length < 3 ∧
    ((processElement (mkConfig {}) tinyNode).rtlApplied = tinyNode.rtlApplied ∧
     (processElement (mkConfig {}) tinyNode).appliedRatio = tinyNode.appliedRatio ∧
     (processElement (mkConfig {}) tinyNode).processed = tinyNode.processed ∧
     (processElement (mkConfig {}) tinyNode).styleDirection = tinyNode.styleDirection ∧
     (processElement (mkConfig {}) tinyNode).styleTextAlign = tinyNode.styleTextAlign ∧
     (processElement (mkConfig {}) tinyNode).styleUnicodeBidi = tinyNode.styleUnicodeBidi ∧
     (processElement (mkConfig {}) tinyNode).styleTransition = tinyNode.styleTransition) :=
  ⟨by decide, short_text_skipped (mkConfig {}) tinyNode (by decide)⟩

/-- A fresh paragraph node no styling has touched. -/
def freshP : NodeState := { id := 0, tagName := "P" }

/-- C8 counterexample: two applications with raw ratios 0.296 and 0.2875
differ by 0.0085, less than 0.01, yet the second application does not
leave the node as the first left it: the first stores the rounded
attribute 0.30, which differs from 0.2875 by 0.0125, so the redundancy
guard fails and the second application rewrites the attribute to 0.29. -/
theorem apply_twice_cex :
    jsAbs ((37 : ℚ) / 125 - 23 / 80) < 1 / 100 ∧
    applyRTLStyles (mkConfig {}) (applyRTLStyles (mkConfig {}) freshP (37 / 125))
        (23 / 80) ≠
      applyRTLStyles (mkConfig {}) freshP (37 / 125) :=
  ⟨by decide, by decide⟩

/-- Style application never changes the dir attribute. -/
theorem applyRTLStyles_dirAttr (cfg : Config) (e : NodeState) (r : ℚ) :
    (applyRTLStyles cfg e r).dirAttr = e.dirAttr := by
  unfold applyRTLStyles
  split
  · rfl
  split
  · rfl
  · rfl

/-- A styled application on a node without override or stored ratio
records the rounded two-decimal ratio attribute. -/
theorem applyRTLStyles_fresh_ratio (cfg : Config) (e : NodeState) (r : ℚ)
    (hdir : isLtrOverride e = false) (hfresh : e.appliedRatio = none) :
    (applyRTLStyles cfg e r).appliedRatio = some (toFixed2 r) := by
  simp [applyRTLStyles, hdir, hasCloseAppliedRatio, hfresh]

/-- C8 amended: the redundancy guard compares the stored two-decimal
attribute, so a second application is a no-op exactly when the rounded
ratio recorded by the first application is within 0.01 of the new ratio. -/
theorem apply_twice_rounded_idempotent (cfg : Config) (e : NodeState) (r1 r2 : ℚ)
    (hdir : isLtrOverride e = false) (hfresh : e.appliedRatio = none)
    (hclose : jsAbs (toFixed2 r1 - r2) < 1 / 100) :
    applyRTLStyles cfg (applyRTLStyles cfg e r1) r2 = applyRTLStyles cfg e r1 := by
  set x := applyRTLStyles cfg e r1 with hx
  have hd1 : isLtrOverride x = false := by
    unfold isLtrOverride
    rw [hx, applyRTLStyles_dirAttr]
    have := hdir
    unfold isLtrOverride at this
    exact this
  have hr1 : x.appliedRatio = some (toFixed2 r1) :=
    applyRTLStyles_fresh_ratio cfg e r1 hdir hfresh
  have hcg : hasCloseAppliedRatio x r2 = true := by
    unfold hasCloseAppliedRatio
    rw [hr1]
    simpa using hclose
  unfold applyRTLStyles
  rw [hd1, hcg]
  simp

/-- Witness for the amended idempotence claim at equal ratios 0.3. -/
theorem apply_twice_rounded_idempotent_witness :
    isLtrOverride freshP = false ∧ freshP.appliedRatio = none ∧
    jsAbs (toFixed2 (3 / 10) - 3 / 10) < 1 / 100 ∧
    applyRTLStyles (mkConfig {}) (applyRTLStyles (mkConfig {}) freshP (3 / 10))
        (3 / 10) =
      applyRTLStyles (mkConfig {}) freshP (3 / 10) :=
  ⟨by decide, rfl, by decide,
    apply_twice_rounded_idempotent (mkConfig {}) freshP (3 / 10) (3 / 10)
      (by decide) rfl (by decide)⟩

/-- Equality of everything styling-observable on a node: the four inline
style properties, the marker attribute and the ratio attribute. -/
def stylingEq (a b : NodeState) : Prop :=
  a.styleDirection = b.styleDirection ∧ a.styleTextAlign = b.styleTextAlign ∧
  a.styleUnicodeBidi = b.styleUnicodeBidi ∧ a.styleTransition = b.styleTransition ∧
  a.rtlApplied = b.rtlApplied ∧ a.appliedRatio = b.appliedRatio

/-- One processing step on a node with an ltr override keeps the override
and all styling-observable state. -/
theorem processElement_ltr_step (cfg : Config) (e : NodeState)
    (h : isLtrOverride e = true) :
    isLtrOverride (processElement cfg e) = true ∧
    stylingEq (processElement cfg e) e := by
  unfold processElement
  by_cases hc : e.connected = false
  · rw [if_pos hc]
    exact ⟨h, rfl, rfl, rfl, rfl, rfl, rfl⟩
  · rw [if_neg hc]
    by_cases ht : extractedText e = "" ∨ (jsTrim (extractedText e)).length < 3
    · rw [if_pos ht]
      exact ⟨h, rfl, rfl, rfl, rfl, rfl, rfl⟩
    · rw [if_neg ht]
      have happly : ∀ r,
          applyRTLStyles cfg { e with cachedText := some (extractedText e) } r =
            { e with cachedText := some (extractedText e) } := by
        intro r
        unfold applyRTLStyles
        rw [if_pos]
        exact h
      by_cases hb : alwaysCheckTags.contains e.tagName ∧
          0 < calculateArabicRatio (extractedText e)
      · rw [if_pos hb, happly]
        exact ⟨h, rfl, rfl, rfl, rfl, rfl, rfl⟩
      · rw [if_neg hb]
        by_cases hb2 : cfg.arabicThreshold ≤ calculateArabicRatio (extractedText e)
        · rw [if_pos hb2, happly]
          exact ⟨h, rfl, rfl, rfl, rfl, rfl, rfl⟩
        · rw [if_neg hb2]
          exact ⟨h, rfl, rfl, rfl, rfl, rfl, rfl⟩

/-- Iterating processing on a node with an ltr override keeps the
override and all styling-observable state, for any number of rounds. -/
theorem processElement_ltr_iterate (cfg : Config) (e : NodeState)
    (h : isLtrOverride e = true) (n : Nat) :
    isLtrOverride ((processElement cfg)^[n] e) = true ∧
    stylingEq ((processElement cfg)^[n] e) e := by
  induction n with
  | zero => exact ⟨h, rfl, rfl, rfl, rfl, rfl, rfl⟩
  | succ k ih =>
    rw [Function.iterate_succ_apply']
    obtain ⟨hk, hs⟩ := ih
    obtain ⟨h1, h2⟩ := processElement_ltr_step cfg _ hk
    obtain ⟨a1, a2, a3, a4, a5, a6⟩ := h2
    obtain ⟨b1, b2, b3, b4, b5, b6⟩ := hs
    exact ⟨h1, a1.trans b1, a2.trans b2, a3.trans b3, a4.trans b4,
      a5.trans b5, a6.trans b6⟩

/-- C6: a node carrying an explicit left-to-right direction override is
never styled: style application is a no-op on it, and its
styling-observable state is unchanged after any number of processing
rounds while the override persists. -/
theorem override_supremacy (cfg : Config) (e : NodeState) (r : ℚ) (n : Nat)
    (h : isLtrOverride e = true) :
    applyRTLStyles cfg e r = e ∧
    stylingEq ((processElement cfg)^[n] e) e := by
  constructor
  · unfold applyRTLStyles
    rw [if_pos h]
  · exact (processElement_ltr_iterate cfg e h n).2

/-- An Arabic paragraph carrying an uppercase LTR override. -/
def ltrNode : NodeState :=
  { id := 9, tagName := "P", dirAttr := some "LTR",
    textContent := "مرحبا بالعالم" }

/-- Witness for the override claim: three processing rounds on an Arabic
paragraph with an uppercase LTR override leave it unstyled. -/
theorem override_supremacy_witness :
    isLtrOverride ltrNode = true ∧
    (applyRTLStyles (mkConfig {}) ltrNode (9 / 10) = ltrNode ∧
      stylingEq ((processElement (mkConfig {}))^[3] ltrNode) ltrNode) :=
  ⟨by decide, override_supremacy (mkConfig {}) ltrNode (9 / 10) 3 (by decide)⟩

/-- A styled application on a node without override or stored ratio sets
the marker attribute. -/
theorem applyRTLStyles_fresh_marker (cfg : Config) (e : NodeState) (r : ℚ)
    (hdir : isLtrOverride e = false) (hfresh : e.appliedRatio = none) :
    (applyRTLStyles cfg e r).rtlApplied = true := by
  simp [applyRTLStyles, hdir, hasCloseAppliedRatio, hfresh]

/-- C1: for an eligible node being processed fresh (connected, trimmed
text of length at least three, no ltr override, no previously applied
styling), a node of an always-check tag (span, h1, a, p) is styled
whenever its ratio is strictly positive, and a node of any other tag is
styled exactly when its ratio reaches the configured threshold. -/
theorem threshold_boundary (cfg : Config) (e : NodeState)
    (hconn : e.connected = true)
    (hlen : 3 ≤ (jsTrim (extractedText e)).length)
    (hdir : isLtrOverride e = false)
    (hfresh : e.appliedRatio = none)
    (happ : e.rtlApplied = false) :
    (alwaysCheckTags.contains e.tagName = true →
      0 < calculateArabicRatio (extractedText e) →
      (processElement cfg e).rtlApplied = true) ∧
    (alwaysCheckTags.contains e.tagName = false →
      ((processElement cfg e).rtlApplied = true ↔
        cfg.arabicThreshold ≤ calculateArabicRatio (extractedText e))) := by
  have hc : ¬ e.connected = false := by simp [hconn]
  have ht : ¬ (extractedText e = "" ∨ (jsTrim (extractedText e)).length < 3) := by
    rintro (h1 | h2)
    · rw [h1] at hlen
      simp [jsTrim] at hlen
    · omega
  have hd1 : isLtrOverride { e with cachedText := some (extractedText e) } = false :=
    hdir
  have hf1 : ({ e with cachedText := some (extractedText e) } : NodeState).appliedRatio
      = none := hfresh
  have hstyled : ∀ r,
      (applyRTLStyles cfg { e with cachedText := some (extractedText e) } r).rtlApplied
        = true :=
    fun r => applyRTLStyles_fresh_marker cfg _ r hd1 hf1
  constructor
  · intro htag hr
    unfold processElement
    rw [if_neg hc, if_neg ht, if_pos ⟨htag, hr⟩]
    exact hstyled _
  · intro htag
    have hbneg : ¬ (alwaysCheckTags.contains e.tagName = true ∧
        0 < calculateArabicRatio (extractedText e)) := by
      rintro ⟨a, -⟩
      rw [htag] at a
      exact Bool.false_ne_true a
    constructor
    · intro hdone
      by_contra hnot
      unfold processElement at hdone
      rw [if_neg hc, if_neg ht, if_neg hbneg, if_neg hnot] at hdone
      have hlast : ({ e with cachedText := some (extractedText e), processed := true }
          : NodeState).rtlApplied = false := happ
      rw [hlast] at hdone
      exact Bool.false_ne_true hdone
    · intro hthr
      unfold processElement
      rw [if_neg hc, if_neg ht, if_neg hbneg, if_pos hthr]
      exact hstyled _

/-- A visible, fresh Arabic heading of the second level: eligible but not
of an always-check tag. -/
def arabicH2 : NodeState := { id := 7, tagName := "H2", textContent := "مرحبا بكم" }

/-- Witness for the threshold-boundary claim on a fresh second-level
Arabic heading under the default configuration. -/
theorem threshold_boundary_witness :
    arabicH2.connected = true ∧
    3 ≤ (jsTrim (extractedText arabicH2)).length ∧
    isLtrOverride arabicH2 = false ∧
    arabicH2.appliedRatio = none ∧
    arabicH2.rtlApplied = false ∧
    ((alwaysCheckTags.contains arabicH2.tagName = true →
        0 < calculateArabicRatio (extractedText arabicH2) →
        (processElement (mkConfig {}) arabicH2).rtlApplied = true) ∧
      (alwaysCheckTags.contains arabicH2.tagName = false →
        ((processElement (mkConfig {}) arabicH2).rtlApplied = true ↔
          (mkConfig {}).arabicThreshold ≤
            calculateArabicRatio (extractedText arabicH2)))) :=
  ⟨rfl, by decide, by decide, rfl, rfl,
    threshold_boundary (mkConfig {}) arabicH2 rfl (by decide) (by decide) rfl rfl⟩

/-- A mutation record as the watcher delivers it: a childList batch of
added element nodes (identified by id; non-element added nodes are
ignored by the handler and not modelled), or a content or attribute
change; the change constructor carries the element whose cache the
handler invalidates (the mutation target itself when it is an element,
else its parent element). -/
inductive Mutation where
  | childList (added : List Nat)
  | contentChange (target : Nat)
  deriving DecidableEq

/-- The whole engine state: configuration, the enabled and
single-flight flags, the pending debounce timer with its captured
mutation batch, the remaining queue of the batch being sliced together
with its scheduled animation-frame callback, and the document nodes. -/
structure EngineState where
  config : Config
  isEnabled : Bool
  isProcessing : Bool
  debouncePending : Option (List Mutation)
  batch : Option (List Nat)
  nodes : List NodeState
  deriving DecidableEq

/-- Look a node up by identity in the document. -/
def findNode (i : Nat) (s : EngineState) : Option NodeState :=
  s.nodes.find? (fun e => e.id == i)

/-- Apply a per-node update to the node of the given identity. -/
def updateNode (i : Nat) (f : NodeState → NodeState) (s : EngineState) : EngineState :=
  { s with nodes := s.nodes.map (fun e => if e.id == i then f e else e) }

/-- The eligible tag names of the target selector list (tag names are
uppercase, as the host reports them). -/
def targetTags : List String :=
  ["P", "SPAN", "H1", "H2", "H3", "H4", "H5", "H6", "TEXTAREA", "LABEL",
   "BUTTON", "A", "LI", "TD", "TH"]

/-- The sensitive input types excluded by both selector lists. -/
def sensitiveInputTypes : List (Option String) :=
  [some "password", some "email", some "url"]

/-- Membership in the target selector list: the eligible tags, inputs of
non-sensitive type, and editable nodes. -/
def matchesTargetSelectors (e : NodeState) : Bool :=
  targetTags.contains e.tagName ||
  (e.tagName == "INPUT" && !(sensitiveInputTypes.contains e.inputType)) ||
  e.contenteditableAttr == some "true" || e.contenteditableAttr == some ""

/-- The skipped tag names of the skip selector list. -/
def skipTags : List String := ["CODE", "PRE", "SCRIPT", "STYLE", "NOSCRIPT", "DIV"]

/-- Membership in the skip selector list: skipped tags, the two opt-out
markers, and sensitive inputs. -/
def matchesSkip (e : NodeState) : Bool :=
  skipTags.contains e.tagName || e.dataRtlSkip || e.classRtlSkip ||
  (e.tagName == "INPUT" && sensitiveInputTypes.contains e.inputType)

/-- One step of getTargetElements' filter over a candidate id, with the
source's side effect: for a processed node with a cache entry the text
is re-extracted and written into the cache, and only then is the cache
read back for the unchanged-text comparison, so the comparison always
sees the value just written. -/
def filterStep (acc : List Nat × EngineState) (cid : Nat) : List Nat × EngineState :=
  match findNode cid acc.2 with
  | none => acc
  | some e =>
    if matchesSkip e then acc
    else if e.visible = false then acc
    else if e.processed = true ∧ e.cachedText.isSome = true then
      if (findNode cid (updateNode cid
            (fun x => { x with cachedText := some (extractedText e) })
            acc.2)).bind (fun x => x.cachedText) = some (extractedText e) then
        (acc.1, updateNode cid
          (fun x => { x with cachedText := some (extractedText e) }) acc.2)
      else
        (acc.1 ++ [cid], updateNode cid
          (fun x => { x with cachedText := some (extractedText e) }) acc.2)
    else (acc.1 ++ [cid], acc.2)

/-- getTargetElements' eligibility filter over the candidate ids. -/
def filterCandidates (cands : List Nat) (s : EngineState) : List Nat × EngineState :=
  cands.foldl filterStep ([], s)

/-- getTargetElements of the source: for the whole document, every
connected node matching the target selectors; for an element root, its
descendants matching the target selectors; then the eligibility filter. -/
def getTargetElements (root : Option Nat) (s : EngineState) : List Nat × EngineState :=
  filterCandidates
    (match root with
     | none =>
       (s.nodes.filter (fun e => e.connected && matchesTargetSelectors e)).map
         (fun e => e.id)
     | some rid =>
       match findNode rid s with
       | some r =>
         ((r.descendants.filterMap (fun d => findNode d s)).filter
           matchesTargetSelectors).map (fun e => e.id)
       | none => []) s

/-- Insertion into the ordered, deduplicated work set. -/
def addUnique (ids : List Nat) (n : Nat) : List Nat :=
  if ids.contains n then ids else ids ++ [n]

/-- One added node's contribution to the affected set in the childList
case: the added element node itself, directly and unfiltered, followed
by its filtered eligible descendants. -/
def childAddStep (a : List Nat × EngineState) (nid : Nat) : List Nat × EngineState :=
  ((getTargetElements (some nid) a.2).1.foldl addUnique (addUnique a.1 nid),
    (getTargetElements (some nid) a.2).2)

/-- One mutation record's contribution, continued: the childList case
folds the added nodes through the step above; the change case
invalidates and adds the target. -/
def mutationStep (acc : List Nat × EngineState) (m : Mutation) : List Nat × EngineState :=
  match m with
  | .childList added => added.foldl childAddStep acc
  | .contentChange target =>
    (addUnique acc.1 target,
      updateNode target (fun x => { x with cachedText := none, processed := false })
        acc.2)

/-- processMutations' accumulation of the affected set over a mutation
batch. -/
def mutationSelection (muts : List Mutation) (s : EngineState) : List Nat × EngineState :=
  muts.foldl mutationStep ([], s)

/-- processElementsBatch of the source: single-flight guarded entry into
slicing; records the queue and schedules the first frame callback. -/
def processElementsBatch (ids : List Nat) (s : EngineState) : EngineState :=
  if ids.isEmpty || s.isProcessing then s
  else { s with isProcessing := true, batch := some ids }

/-- processMutations of the source: build the affected set, then start a
batch when it is nonempty. -/
def processMutations (muts : List Mutation) (s : EngineState) : EngineState :=
  if 0 < (mutationSelection muts s).1.length then
    processElementsBatch (mutationSelection muts s).1 (mutationSelection muts s).2
  else (mutationSelection muts s).2

/-- handleMutations of the source: mutations observed while disabled or
while a batch is executing are dropped; otherwise the pending debounce
timer is replaced by one capturing exactly this batch. -/
def handleMutations (muts : List Mutation) (s : EngineState) : EngineState :=
  if s.isEnabled = false ∨ s.isProcessing = true then s
  else { s with debouncePending := some muts }

/-- The debounce timer firing after the quiet delay: forwards the
captured batch. -/
def fireDebounce (s : EngineState) : EngineState :=
  match s.debouncePending with
  | none => s
  | some muts => processMutations muts { s with debouncePending := none }

/-- One animation-frame callback of the batch processor: processes
elements from the front of the queue until the slice time budget runs
out (the budget is modelled as a positive element count, since the time
check happens after at least one element), then either schedules the
next frame with the remaining queue or finishes and clears the
single-flight flag. The callback never consults the enabled flag,
exactly as the source callback does not. -/
def runSlice (n : Nat) (s : EngineState) : EngineState :=
  match s.batch with
  | none => s
  | some ids =>
    if (ids.drop (n + 1)).isEmpty then
      { (ids.take (n + 1)).foldl
          (fun st eid =>
            match findNode eid st with
            | some e =>
              if e.connected then updateNode eid (processElement st.config) st
              else st
            | none => st) s with
        batch := none, isProcessing := false }
    else
      { (ids.take (n + 1)).foldl
          (fun st eid =>
            match findNode eid st with
            | some e =>
              if e.connected then updateNode eid (processElement st.config) st
              else st
            | none => st) s with
        batch := some (ids.drop (n + 1)) }

/-- The per-node part of removeAllRTLStyles: a connected node carrying
the marker attribute has its style properties, both attributes, its
processed flag and its cache entry cleared. -/
def removeRTLNode (e : NodeState) : NodeState :=
  if e.connected && e.rtlApplied then
    { e with
      styleDirection := ""
      styleTextAlign := ""
      styleUnicodeBidi := ""
      styleTransition := ""
      rtlApplied := false
      appliedRatio := none
      processed := false
      cachedText := none }
  else e

/-- removeAllRTLStyles of the source: reverses styling on every node the
document query finds carrying the marker attribute. -/
def removeAllRTLStyles (s : EngineState) : EngineState :=
  { s with nodes := s.nodes.map removeRTLNode }

/-- disable of the source: clears the enabled and single-flight flags,
cancels the pending debounce timer, and reverses all applied styling.
The scheduled frame callback of a batch in flight is not cancelled. -/
def disable (s : EngineState) : EngineState :=
  removeAllRTLStyles
    { s with isEnabled := false, isProcessing := false, debouncePending := none }

/-- scanDOM of the source: a no-op while disabled or while a batch is
executing; otherwise discovery plus a batch run. -/
def scanDOM (root : Option Nat) (s : EngineState) : EngineState :=
  if s.isEnabled = false ∨ s.isProcessing = true then s
  else processElementsBatch (getTargetElements root s).1 (getTargetElements root s).2

/-- enable of the source: sets the enabled flag and triggers a full scan. -/
def enable (s : EngineState) : EngineState := scanDOM none { s with isEnabled := true }

/-- A connected Arabic paragraph. -/
def nodeA : NodeState := { id := 1, tagName := "P", textContent := "مرحبا بالعالم" }

/-- A second connected Arabic paragraph. -/
def nodeB : NodeState := { id := 2, tagName := "P", textContent := "مرحبا بكم جميعا" }

/-- An enabled, idle engine over the two paragraphs. -/
def engine0 : EngineState :=
  { config := mkConfig {}, isEnabled := true, isProcessing := false,
    debouncePending := none, batch := none, nodes := [nodeA, nodeB] }

/-- The engine mid-batch: a batch over both paragraphs was started and
its first slice processed the first paragraph, leaving the second queued
with the next frame callback scheduled. -/
def engineMidBatch : EngineState := runSlice 0 (processElementsBatch [1, 2] engine0)

/-- The engine right after disable was called mid-batch. -/
def engineDisabled : EngineState := disable engineMidBatch

/-- C2 counterexample: after disable, the engine is disabled yet the
queued frame callback of the in-flight batch still runs a further slice;
that slice changes the state and styles the remaining paragraph, so
slicing is not aborted by disable. -/
theorem disable_slice_continues_cex :
    engineDisabled.isEnabled = false ∧
    engineDisabled.batch = some [2] ∧
    runSlice 0 engineDisabled ≠ engineDisabled ∧
    (findNode 2 (runSlice 0 engineDisabled)).map (fun e => e.rtlApplied) = some true :=
  ⟨by decide, by decide, by decide, by decide⟩

/-- C2 amended: disable cancels the pending debounce timer and, while
the engine is disabled, mutation handling and scans are no-ops, so no
new batch starts; a batch already slicing, however, keeps running. -/
theorem disable_cancels_and_blocks_new_batches (s : EngineState)
    (muts : List Mutation) (root : Option Nat) :
    (disable s).isEnabled = false ∧
    (disable s).debouncePending = none ∧
    handleMutations muts (disable s) = disable s ∧
    scanDOM root (disable s) = disable s := by
  refine ⟨rfl, rfl, ?_, ?_⟩
  · unfold handleMutations
    rw [if_pos (Or.inl (show (disable s).isEnabled = false from rfl))]
  · unfold scanDOM
    rw [if_pos (Or.inl (show (disable s).isEnabled = false from rfl))]

/-- The engine after the in-flight batch finished its post-disable
slice: fully quiescent (no batch, no timer) and still disabled. -/
def engineQuiescent : EngineState := runSlice 0 engineDisabled

/-- C3 counterexample: at quiescence after a mid-batch disable, the
second paragraph carries the marker and ratio attributes again, because
the slice that ran after disable re-applied them. -/
theorem disable_quiescence_marker_cex :
    engineQuiescent.isEnabled = false ∧
    engineQuiescent.batch = none ∧
    engineQuiescent.debouncePending = none ∧
    (findNode 2 engineQuiescent).map (fun e => e.rtlApplied) = some true ∧
    (findNode 2 engineQuiescent).map (fun e => e.appliedRatio.isSome) = some true :=
  ⟨by decide, by decide, by decide, by decide, by decide⟩

/-- C3 amended: immediately after disable returns, no connected node
carries the marker or the ratio attribute, and every node that carried
the marker also has its processed flag and cache entry cleared; the
hypothesis states the engine-maintained invariant that the ratio
attribute only ever accompanies the marker. -/
theorem disable_clears_marked_nodes (s : EngineState)
    (hinv : ∀ e ∈ s.nodes, e.appliedRatio ≠ none → e.rtlApplied = true) :
    (disable s).nodes = s.nodes.map removeRTLNode ∧
    ∀ e ∈ s.nodes, e.connected = true →
      (removeRTLNode e).rtlApplied = false ∧
      (removeRTLNode e).appliedRatio = none ∧
      (e.rtlApplied = true →
        (removeRTLNode e).processed = false ∧ (removeRTLNode e).cachedText = none) := by
  refine ⟨rfl, ?_⟩
  intro e he hc
  by_cases hr : e.rtlApplied = true
  · unfold removeRTLNode
    rw [if_pos (by rw [hc, hr]; rfl)]
    exact ⟨rfl, rfl, fun _ => ⟨rfl, rfl⟩⟩
  · have hf : e.rtlApplied = false := by
      cases hb : e.rtlApplied
      · rfl
      · exact absurd hb hr
    have hratio : e.appliedRatio = none := by
      by_contra hne
      exact hr (hinv e he hne)
    unfold removeRTLNode
    rw [if_neg (by rw [hf]; simp)]
    exact ⟨hf, hratio, fun hcon => absurd hcon hr⟩

/-- Witness for the amended disable claim on the mid-batch engine, whose
first paragraph carries applied styling. -/
theorem disable_clears_marked_nodes_witness :
    (∀ e ∈ engineMidBatch.nodes, e.appliedRatio ≠ none → e.rtlApplied = true) ∧
    ((disable engineMidBatch).nodes = engineMidBatch.nodes.map removeRTLNode ∧
      ∀ e ∈ engineMidBatch.nodes, e.connected = true →
        (removeRTLNode e).rtlApplied = false ∧
        (removeRTLNode e).appliedRatio = none ∧
        (e.rtlApplied = true →
          (removeRTLNode e).processed = false ∧ (removeRTLNode e).cachedText = none)) :=
  ⟨by decide, disable_clears_marked_nodes engineMidBatch (by decide)⟩

/-- A childList mutation adding the first paragraph. -/
def mutFirst : Mutation := Mutation.childList [1]

/-- A childList mutation adding the second paragraph. -/
def mutSecond : Mutation := Mutation.childList [2]

/-- The engine after two mutation batches arrived inside one debounce
window. -/
def engineAfterTwo : EngineState :=
  handleMutations [mutSecond] (handleMutations [mutFirst] engine0)

/-- C4 counterexample: after two batches inside one window, the pending
debounce callback captures only the second batch; the node affected by
the first batch is in that batch's affected set but not in the set the
timer will forward, so the forwarded set is not the accumulated union. -/
theorem debounce_drop_cex :
    engineAfterTwo.debouncePending = some [mutSecond] ∧
    1 ∈ (mutationSelection [mutFirst] engineAfterTwo).1 ∧
    (mutationSelection [mutSecond] engineAfterTwo).1 = [2] ∧
    1 ∉ (mutationSelection [mutSecond] engineAfterTwo).1 :=
  ⟨by decide, by decide, by decide, by decide⟩

/-- C4 amended: every arrival within the debounce window replaces the
pending batch, so when the delay elapses only the most recent batch's
affected nodes are forwarded; earlier batches of the window are dropped. -/
theorem debounce_keeps_last_batch (s : EngineState) (m1 m2 : List Mutation)
    (hen : s.isEnabled = true) (hpr : s.isProcessing = false) :
    (handleMutations m2 (handleMutations m1 s)).debouncePending = some m2 := by
  have h1 : handleMutations m1 s = { s with debouncePending := some m1 } := by
    unfold handleMutations
    rw [if_neg]
    rintro (a | b)
    · simp [hen] at a
    · simp [hpr] at b
  rw [h1]
  unfold handleMutations
  rw [if_neg]
  rintro (a | b)
  · simp [hen] at a
  · simp [hpr] at b

/-- Witness for the amended debounce claim on the two-paragraph engine. -/
theorem debounce_keeps_last_batch_witness :
    engine0.isEnabled = true ∧ engine0.isProcessing = false ∧
    (handleMutations [mutSecond]
      (handleMutations [mutFirst] engine0)).debouncePending = some [mutSecond] :=
  ⟨rfl, rfl, debounce_keeps_last_batch engine0 [mutFirst] [mutSecond] rfl rfl⟩

/-- A paragraph already processed and styled, whose cache entry equals
its current text. -/
def processedNode : NodeState :=
  { id := 3, tagName := "P", textContent := "مرحبا بالعالم",
    rtlApplied := true, appliedRatio := some 1,
    processed := true, cachedText := some "مرحبا بالعالم" }

/-- An enabled, idle engine holding only that processed paragraph. -/
def engineReadd : EngineState :=
  { config := mkConfig {}, isEnabled := true, isProcessing := false,
    debouncePending := none, batch := none, nodes := [processedNode] }

/-- C5 counterexample: a childList mutation re-inserting the processed
paragraph selects it for reprocessing although it is marked processed
and its extracted text equals its cached text, because added nodes are
forwarded to the batch without passing the eligibility filter. -/
theorem mutation_readd_reprocess_cex :
    3 ∈ (mutationSelection [Mutation.childList [3]] engineReadd).1 ∧
    ∀ e ∈ (mutationSelection [Mutation.childList [3]] engineReadd).2.nodes,
      e.id = 3 → e.processed = true ∧ e.cachedText = some (extractedText e) :=
  ⟨by decide, by decide⟩

/-- The node of the given identity, if present, is not marked processed. -/
def notProcessedAt (i : Nat) (s : EngineState) : Prop :=
  ∀ e, findNode i s = some e → e.processed = false

/-- The engine-maintained coherence invariant: a processed node always
has a cache entry (processing always writes the cache first). -/
def coherentCache (s : EngineState) : Prop :=
  ∀ e ∈ s.nodes, e.processed = true → e.cachedText.isSome = true

/-- The ids a mutation batch forwards directly as childList-added nodes,
bypassing the eligibility filter. -/
def directAdded : List Mutation → List Nat
  | [] => []
  | Mutation.childList l :: rest => l ++ directAdded rest
  | Mutation.contentChange _ :: rest => directAdded rest

/-- find? commutes with a map that does not change the predicate. -/
theorem find?_map_pred {α : Type} (g : α → α) (p : α → Bool)
    (hp : ∀ a, p (g a) = p a) (l : List α) :
    (l.map g).find? p = (l.find? p).map g := by
  induction l with
  | nil => rfl
  | cons a t ih =>
    simp only [List.map_cons, List.find?]
    rw [hp a]
    cases h : p a
    · exact ih
    · rfl

/-- Node lookup after a per-identity update: the found node is the
original one, updated when its identity matches. -/
theorem findNode_updateNode (i j : Nat) (f : NodeState → NodeState)
    (hid : ∀ e, (f e).id = e.id) (s : EngineState) :
    findNode i (updateNode j f s) =
      (findNode i s).map (fun e => if e.id == j then f e else e) := by
  unfold findNode updateNode
  exact find?_map_pred _ _
    (fun a => by
      by_cases hb : (a.id == j) = true
      · simp [hb, hid]
      · simp [hb]) _

/-- Membership after a deduplicating insertion. -/
theorem mem_addUnique (ids : List Nat) (n i : Nat) :
    i ∈ addUnique ids n ↔ i ∈ ids ∨ i = n := by
  unfold addUnique
  by_cases h : ids.contains n
  · rw [if_pos h]
    constructor
    · exact Or.inl
    · rintro (hl | he)
      · exact hl
      · subst he
        simpa using h
  · rw [if_neg h]
    simp [List.mem_append]

/-- Membership after folding deduplicating insertions. -/
theorem mem_foldl_addUnique (l : List Nat) :
    ∀ base i, i ∈ l.foldl addUnique base ↔ i ∈ base ∨ i ∈ l := by
  induction l with
  | nil => simp
  | cons c t ih =>
    intro base i
    rw [List.foldl_cons, ih, mem_addUnique]
    simp only [List.mem_cons]
    constructor
    · rintro ((h | h) | h)
      · exact Or.inl h
      · exact Or.inr (Or.inl h)
      · exact Or.inr (Or.inr h)
    · rintro (h | h | h)
      · exact Or.inl (Or.inl h)
      · exact Or.inl (Or.inr h)
      · exact Or.inr h

/-- A per-identity update that never turns the processed flag on keeps a
node unprocessed. -/
theorem notProcessedAt_updateNode (i j : Nat) (f : NodeState → NodeState)
    (hid : ∀ e, (f e).id = e.id)
    (hpr : ∀ e, (f e).processed = true → e.processed = true)
    (s : EngineState) (h : notProcessedAt i s) :
    notProcessedAt i (updateNode j f s) := by
  intro e he
  rw [findNode_updateNode i j f hid s] at he
  obtain ⟨e0, hf, hg⟩ := Option.map_eq_some'.mp he
  by_cases hb : (e0.id == j) = true
  · rw [if_pos hb] at hg
    subst hg
    cases hfp : (f e0).processed
    · rfl
    · have h1 := hpr e0 hfp
      rw [h e0 hf] at h1
      exact Bool.noConfusion h1
  · rw [if_neg hb] at hg
    subst hg
    exact h e0 hf

/-- A per-identity update that keeps processed nodes cache-backed keeps
the cache coherence invariant. -/
theorem coherentCache_updateNode (j : Nat) (f : NodeState → NodeState)
    (hgood : ∀ e, (e.processed = true → e.cachedText.isSome = true) →
      (f e).processed = true → (f e).cachedText.isSome = true)
    (s : EngineState) (h : coherentCache s) :
    coherentCache (updateNode j f s) := by
  intro e he hp
  unfold updateNode at he
  simp only [List.mem_map] at he
  obtain ⟨e0, he0, hg⟩ := he
  by_cases hb : (e0.id == j) = true
  · rw [if_pos hb] at hg
    subst hg
    exact hgood e0 (h e0 he0) hp
  · rw [if_neg hb] at hg
    subst hg
    exact h e0 he0 hp

/-- Case analysis of one filter step: it keeps cache coherence, never
turns a processed flag on, and every id it adds to the selection is
unprocessed in the resulting state (the processed-with-cache branch
never selects, because the comparison reads the cache entry it just
wrote). -/
theorem filterStep_cases (acc : List Nat × EngineState) (cid : Nat) :
    (coherentCache acc.2 → coherentCache (filterStep acc cid).2) ∧
    (∀ i, notProcessedAt i acc.2 → notProcessedAt i (filterStep acc cid).2) ∧
    (coherentCache acc.2 → ∀ i ∈ (filterStep acc cid).1,
      i ∈ acc.1 ∨ notProcessedAt i (filterStep acc cid).2) := by
  unfold filterStep
  split
  · exact ⟨fun h => h, fun i h => h, fun _ i hi => Or.inl hi⟩
  · rename_i e hf
    split
    · exact ⟨fun h => h, fun i h => h, fun _ i hi => Or.inl hi⟩
    · split
      · exact ⟨fun h => h, fun i h => h, fun _ i hi => Or.inl hi⟩
      · split
        · split
          · refine ⟨?_, ?_, ?_⟩
            · exact coherentCache_updateNode cid
                (fun x => { x with cachedText := some (extractedText e) })
                (fun x _ _ => rfl) acc.2
            · exact fun i h =>
                notProcessedAt_updateNode i cid
                  (fun x => { x with cachedText := some (extractedText e) })
                  (fun x => rfl) (fun x hx => hx) acc.2 h
            · intro _ i hi
              exact Or.inl hi
          · rename_i hcond
            exfalso
            apply hcond
            rw [findNode_updateNode cid cid
              (fun x => { x with cachedText := some (extractedText e) })
              (fun x => rfl) acc.2, hf]
            have hbeq : (e.id == cid) = true := by
              have h1 := List.find?_some hf
              simpa using h1
            have heq : e.id = cid := by simpa using hbeq
            simp [heq]
        · rename_i hnotpc
          refine ⟨fun h => h, fun i h => h, fun hcoh i hi => ?_⟩
          rcases List.mem_append.mp hi with hl | hr
          · exact Or.inl hl
          · have hic : i = cid := by simpa using hr
            subst hic
            right
            intro e' he'
            rw [hf] at he'
            obtain rfl : e = e' := Option.some.inj he'
            have hmem : e ∈ acc.2.nodes := List.mem_of_find?_eq_some hf
            cases hp : e.processed
            · rfl
            · exact absurd ⟨hp, hcoh e hmem hp⟩ hnotpc

/-- The filter fold keeps cache coherence and unprocessed-ness, and
every id it selects is unprocessed in the final state. -/
theorem filterFold_spec (cands : List Nat) :
    ∀ acc : List Nat × EngineState,
      coherentCache acc.2 →
      (∀ i ∈ acc.1, notProcessedAt i acc.2) →
      coherentCache (cands.foldl filterStep acc).2 ∧
      (∀ i, notProcessedAt i acc.2 → notProcessedAt i (cands.foldl filterStep acc).2) ∧
      (∀ i ∈ (cands.foldl filterStep acc).1,
        notProcessedAt i (cands.foldl filterStep acc).2) := by
  induction cands with
  | nil => exact fun acc hcoh hsel => ⟨hcoh, fun i h => h, hsel⟩
  | cons c t ih =>
    intro acc hcoh hsel
    rw [List.foldl_cons]
    obtain ⟨s1, s2, s3⟩ := filterStep_cases acc c
    have hcoh2 := s1 hcoh
    have hsel2 : ∀ i ∈ (filterStep acc c).1, notProcessedAt i (filterStep acc c).2 := by
      intro i hi
      rcases s3 hcoh i hi with hl | hr
      · exact s2 i (hsel i hl)
      · exact hr
    obtain ⟨t1, t2, t3⟩ := ih (filterStep acc c) hcoh2 hsel2
    exact ⟨t1, fun i h => t2 i (s2 i h), t3⟩

/-- Discovery keeps cache coherence and unprocessed-ness, and only
selects ids that are unprocessed in the resulting state. -/
theorem getTargetElements_spec (root : Option Nat) (s : EngineState)
    (hcoh : coherentCache s) :
    coherentCache (getTargetElements root s).2 ∧
    (∀ i, notProcessedAt i s → notProcessedAt i (getTargetElements root s).2) ∧
    (∀ i ∈ (getTargetElements root s).1, notProcessedAt i (getTargetElements root s).2) := by
  unfold getTargetElements filterCandidates
  exact filterFold_spec _ ([], s) hcoh (fun i hi => absurd hi (List.not_mem_nil i))

/-- One childList-added node's step: coherence and unprocessed-ness are
kept, and every selected id is either in the ambient direct-added set or
unprocessed in the resulting state. -/
theorem childAddStep_spec (a : List Nat × EngineState) (nid : Nat) (D : List Nat)
    (hD : nid ∈ D)
    (hcoh : coherentCache a.2)
    (hsel : ∀ i ∈ a.1, i ∈ D ∨ notProcessedAt i a.2) :
    coherentCache (childAddStep a nid).2 ∧
    (∀ i, notProcessedAt i a.2 → notProcessedAt i (childAddStep a nid).2) ∧
    (∀ i ∈ (childAddStep a nid).1, i ∈ D ∨ notProcessedAt i (childAddStep a nid).2) := by
  obtain ⟨g1, g2, g3⟩ := getTargetElements_spec (some nid) a.2 hcoh
  refine ⟨g1, g2, ?_⟩
  intro i hi
  have hi2 := (mem_foldl_addUnique _ _ i).mp hi
  rcases hi2 with hb | hg
  · rcases (mem_addUnique _ _ i).mp hb with ha | he
    · rcases hsel i ha with hd | hnp
      · exact Or.inl hd
      · exact Or.inr (g2 i hnp)
    · subst he
      exact Or.inl hD
  · exact Or.inr (g3 i hg)

/-- The childList fold over all added nodes of one mutation record. -/
theorem childFold_spec (added : List Nat) (D : List Nat)
    (hsub : ∀ x ∈ added, x ∈ D) :
    ∀ acc : List Nat × EngineState,
      coherentCache acc.2 →
      (∀ i ∈ acc.1, i ∈ D ∨ notProcessedAt i acc.2) →
      coherentCache (added.foldl childAddStep acc).2 ∧
      (∀ i, notProcessedAt i acc.2 →
        notProcessedAt i (added.foldl childAddStep acc).2) ∧
      (∀ i ∈ (added.foldl childAddStep acc).1,
        i ∈ D ∨ notProcessedAt i (added.foldl childAddStep acc).2) := by
  induction added with
  | nil => exact fun acc hcoh hsel => ⟨hcoh, fun i h => h, hsel⟩
  | cons c t ih =>
    intro acc hcoh hsel
    rw [List.foldl_cons]
    obtain ⟨s1, s2, s3⟩ := childAddStep_spec acc c D (hsub c (List.mem_cons_self c t))
      hcoh hsel
    obtain ⟨t1, t2, t3⟩ := ih (fun x hx => hsub x (List.mem_cons_of_mem c hx))
      (childAddStep acc c) s1 s3
    exact ⟨t1, fun i h => t2 i (s2 i h), t3⟩

/-- One mutation record's step: coherence and unprocessed-ness are kept,
and every selected id is direct-added or unprocessed afterwards. -/
theorem mutationStep_spec (acc : List Nat × EngineState) (m : Mutation) (D : List Nat)
    (hm : ∀ l, m = Mutation.childList l → ∀ x ∈ l, x ∈ D)
    (hcoh : coherentCache acc.2)
    (hsel : ∀ i ∈ acc.1, i ∈ D ∨ notProcessedAt i acc.2) :
    coherentCache (mutationStep acc m).2 ∧
    (∀ i, notProcessedAt i acc.2 → notProcessedAt i (mutationStep acc m).2) ∧
    (∀ i ∈ (mutationStep acc m).1, i ∈ D ∨ notProcessedAt i (mutationStep acc m).2) := by
  cases m with
  | childList added =>
    exact childFold_spec added D (hm added rfl) acc hcoh hsel
  | contentChange target =>
    unfold mutationStep
    have hclear : notProcessedAt target
        (updateNode target
          (fun x => { x with cachedText := none, processed := false }) acc.2) := by
      intro e he
      rw [findNode_updateNode target target
        (fun x => { x with cachedText := none, processed := false })
        (fun x => rfl) acc.2] at he
      obtain ⟨e0, hf0, hg⟩ := Option.map_eq_some'.mp he
      have hbeq : (e0.id == target) = true := by
        have h1 := List.find?_some hf0
        simpa using h1
      rw [if_pos hbeq] at hg
      subst hg
      rfl
    refine ⟨?_, ?_, ?_⟩
    · exact coherentCache_updateNode target
        (fun x => { x with cachedText := none, processed := false })
        (fun x _ hx => Bool.noConfusion hx) acc.2 hcoh
    · exact fun i h =>
        notProcessedAt_updateNode i target
          (fun x => { x with cachedText := none, processed := false })
          (fun x => rfl) (fun x hx => Bool.noConfusion hx) acc.2 h
    · intro i hi
      rcases (mem_addUnique _ _ i).mp hi with ha | he
      · rcases hsel i ha with hd | hnp
        · exact Or.inl hd
        · exact Or.inr (notProcessedAt_updateNode i target
            (fun x => { x with cachedText := none, processed := false })
            (fun x => rfl) (fun x hx => Bool.noConfusion hx) acc.2 hnp)
      · subst he
        exact Or.inr hclear

/-- The fold over a whole mutation batch. -/
theorem mutationFold_spec (muts : List Mutation) (D : List Nat)
    (hD : ∀ m ∈ muts, ∀ l, m = Mutation.childList l → ∀ x ∈ l, x ∈ D) :
    ∀ acc : List Nat × EngineState,
      coherentCache acc.2 →
      (∀ i ∈ acc.1, i ∈ D ∨ notProcessedAt i acc.2) →
      coherentCache (muts.foldl mutationStep acc).2 ∧
      (∀ i ∈ (muts.foldl mutationStep acc).1,
        i ∈ D ∨ notProcessedAt i (muts.foldl mutationStep acc).2) := by
  induction muts with
  | nil => exact fun acc hcoh hsel => ⟨hcoh, hsel⟩
  | cons m t ih =>
    intro acc hcoh hsel
    rw [List.foldl_cons]
    obtain ⟨s1, s2, s3⟩ := mutationStep_spec acc m D
      (fun l hl => hD m (List.mem_cons_self m t) l hl) hcoh hsel
    exact ih (fun m2 hm2 => hD m2 (List.mem_cons_of_mem m hm2))
      (mutationStep acc m) s1 s3

/-- The childList payloads of a batch are contained in its direct-added
set. -/
theorem childList_sub_directAdded (muts : List Mutation) :
    ∀ m ∈ muts, ∀ l, m = Mutation.childList l → ∀ x ∈ l, x ∈ directAdded muts := by
  induction muts with
  | nil => exact fun m hm => absurd hm (List.not_mem_nil m)
  | cons m0 t ih =>
    intro m hm l hml x hx
    rcases List.mem_cons.mp hm with he | ht
    · subst he
      subst hml
      unfold directAdded
      exact List.mem_append_left _ hx
    · have hx2 := ih m ht l hml x hx
      cases m0 with
      | childList l0 =>
        unfold directAdded
        exact List.mem_append_right _ hx2
      | contentChange tg =>
        unfold directAdded
        exact hx2

/-- C5 amended: under the engine's cache-coherence invariant, a node
selected for reprocessing by the discovery paths (initial scan and
rescan) is never marked processed; a node selected by mutation handling
is either forwarded directly as a childList-added node, bypassing the
filter, or is unprocessed at forwarding time (its processed flag was
cleared by the invalidation, or it never was processed). -/
theorem reprocess_only_changed_or_new_or_direct (s : EngineState)
    (hcoh : coherentCache s) :
    (∀ root i, i ∈ (getTargetElements root s).1 →
      notProcessedAt i (getTargetElements root s).2) ∧
    (∀ muts i, i ∈ (mutationSelection muts s).1 →
      i ∈ directAdded muts ∨ notProcessedAt i (mutationSelection muts s).2) := by
  constructor
  · intro root i hi
    exact (getTargetElements_spec root s hcoh).2.2 i hi
  · intro muts i hi
    exact (mutationFold_spec muts (directAdded muts)
      (childList_sub_directAdded muts) ([], s) hcoh
      (fun i hi => absurd hi (List.not_mem_nil i))).2 i hi

/-- Witness for the amended reprocessing claim on the engine holding the
processed paragraph. -/
theorem reprocess_only_changed_or_new_or_direct_witness :
    (∀ e ∈ engineReadd.nodes, e.processed = true → e.cachedText.isSome = true) ∧
    ((∀ root i, i ∈ (getTargetElements root engineReadd).1 →
        notProcessedAt i (getTargetElements root engineReadd).2) ∧
      (∀ muts i, i ∈ (mutationSelection muts engineReadd).1 →
        i ∈ directAdded muts ∨
          notProcessedAt i (mutationSelection muts engineReadd).2)) :=
  ⟨by decide, reprocess_only_changed_or_new_or_direct engineReadd
    (by unfold coherentCache; decide)⟩
